import Mathlib

/-!
Shallow embedding of the QueueCTL coordination core (`queuectl/db.py`,
`queuectl/queue.py`, `queuectl/models.py`) and proofs about it.

Timestamps are modelled as integers (UTC seconds), SQL `TEXT`/`INTEGER`
columns as `String`/`Int`, nullable columns as `Option`, and the SQLite
tables as lists of rows.  Each transaction of the source becomes one pure
function from store to store; the fresh UUIDs and the wall clock are passed
in as explicit arguments.
-/

namespace QueueCTL

/-- Job states (`models.JobState`). -/
inductive JobState where
  | pending
  | processing
  | completed
  | failed
  | dead
deriving DecidableEq, Repr

/-- A row of the `jobs` table (`models.Job`).  `attempts` is a natural
number: every write path stores either `0` or a predecessor plus one. -/
structure Job where
  id : String
  command : String
  state : JobState
  attempts : Nat
  max_retries : Int
  created_at : Int
  updated_at : Int
  next_run_at : Int
  last_error : Option String := none
  priority : Int := 0
  run_at : Option Int := none
  timeout_seconds : Option Int := none
  worker_id : Option String := none
deriving DecidableEq, Repr

/-- A row of the `dlq` table (`models.DLQJob`). -/
structure DLQJob where
  id : String
  original_job_id : String
  command : String
  attempts : Nat
  last_error : Option String
  created_at : Int
  updated_at : Int
  moved_at : Int
deriving DecidableEq, Repr

/-- A row of the `workers` table (`models.Worker`). -/
structure Worker where
  worker_id : String
  pid : Int
  started_at : Int
  last_heartbeat_at : Int
  hostname : String
  version : String
deriving DecidableEq, Repr

/-- The durable store: the three tables the coordination core mutates. -/
structure Store where
  jobs : List Job
  dlq : List DLQJob
  workers : List Worker
deriving DecidableEq, Repr

/-- The freshly initialised store (`Database._init_schema`). -/
def emptyStore : Store := { jobs := [], dlq := [], workers := [] }

/-- Hydration by id (`Database._get_job_by_id` / `QueueManager.get_job`). -/
def getJobById (jobs : List Job) (jid : String) : Option Job :=
  jobs.find? (fun r => decide (r.id = jid))

/-- The claim eligibility predicate of `Database.claim_job`:
`state = 'pending' AND datetime(next_run_at) <= datetime('now')`. -/
def eligible (now : Int) (j : Job) : Bool :=
  decide (j.state = JobState.pending) && decide (j.next_run_at ≤ now)

/-- The order `ORDER BY priority DESC, created_at ASC`: row `a` sorts strictly before
row `b`. -/
def sortsBefore (a b : Job) : Bool :=
  decide (b.priority < a.priority) ||
    (decide (a.priority = b.priority) && decide (a.created_at < b.created_at))

/-- Scan for the first row of the ordered result set (`... LIMIT 1`). -/
def pickBest : Option Job → List Job → Option Job
  | best, [] => best
  | none, j :: rest => pickBest (some j) rest
  | some b, j :: rest => pickBest (some (if sortsBefore j b then j else b)) rest

/-- The candidate selection `SELECT id ... LIMIT 1` of `Database.claim_job`. -/
def selectCandidate (jobs : List Job) (now : Int) : Option String :=
  (pickBest none (jobs.filter (eligible now))).map Job.id

/-- The row written by the claim `UPDATE`: `state = 'processing',
worker_id = ?, updated_at = datetime('now')`. -/
def claimedRow (w : String) (now : Int) (j : Job) : Job :=
  { j with state := JobState.processing, worker_id := some w, updated_at := now }

/-- The conditional `UPDATE jobs ... WHERE id = ? AND state = 'pending' AND
datetime(next_run_at) <= datetime('now')` of `Database.claim_job`: every row
matching the `WHERE` clause is overwritten, and `cursor.rowcount` is the
number of matched rows. -/
def conditionalClaimUpdate (jobs : List Job) (jid w : String) (now : Int) :
    List Job × Nat :=
  (jobs.map (fun r => if r.id = jid ∧ eligible now r then claimedRow w now r else r),
   (jobs.filter (fun r => decide (r.id = jid ∧ eligible now r))).length)

/-- The claim primitive `Database.claim_job`: inside one serializable transaction, select the
candidate id, update it conditional on it still being eligible, and return
the hydrated row only when the update mutated exactly one row. -/
def claim_job (s : Store) (w : String) (now : Int) : Option Job × Store :=
  match selectCandidate s.jobs now with
  | none => (none, s)
  | some jid =>
    let p := conditionalClaimUpdate s.jobs jid w now
    (if p.2 = 1 then getJobById p.1 jid else none, { s with jobs := p.1 })

/-- The row produced by the `UPDATE` of `QueueManager.update_job` on a
matching row `r`: every column except `id` and `created_at` is overwritten
from the job object `j`. -/
def updatedRow (r j : Job) : Job :=
  { id := r.id, command := j.command, state := j.state, attempts := j.attempts,
    max_retries := j.max_retries, created_at := r.created_at,
    updated_at := j.updated_at, next_run_at := j.next_run_at,
    last_error := j.last_error, priority := j.priority, run_at := j.run_at,
    timeout_seconds := j.timeout_seconds, worker_id := j.worker_id }

/-- The whole-row update `QueueManager.update_job`. -/
def update_job (s : Store) (j : Job) : Store :=
  { s with jobs := s.jobs.map (fun r => if r.id = j.id then updatedRow r j else r) }

/-- The DLQ transition `QueueManager.move_to_dlq`: in one transaction, insert the DLQ row under
the fresh identifier `uuid` and delete the Job row. -/
def move_to_dlq (s : Store) (j : Job) (now : Int) (uuid : String) : Store :=
  { s with
    jobs := s.jobs.filter (fun r => decide (r.id ≠ j.id)),
    dlq := s.dlq ++ [{ id := uuid, original_job_id := j.id, command := j.command,
                       attempts := j.attempts, last_error := j.last_error,
                       created_at := j.created_at, updated_at := now,
                       moved_at := now }] }

/-- Backoff (`QueueManager.calculate_backoff_delay`): `base ** attempts`. -/
def calculate_backoff_delay (attempts : Nat) (base : Int) : Int :=
  base ^ attempts

/-- The in-place mutation at the top of `QueueManager.handle_job_failure`
(queue.py lines 105-108).  Python evaluates
`error_message[:1000] if error_message else None`, so the empty message
stores null rather than an empty string. -/
def failedJob (j : Job) (msg : String) (now : Int) : Job :=
  { j with attempts := j.attempts + 1,
           last_error := if msg = "" then none else some (msg.take 1000),
           updated_at := now, worker_id := none }

/-- The retry branch of `QueueManager.handle_job_failure` (lines 114-116):
reschedule with exponential backoff. -/
def retriedJob (j : Job) (now base : Int) : Job :=
  { j with next_run_at := now + calculate_backoff_delay j.attempts base,
           state := JobState.pending }

/-- The failure outcome `QueueManager.handle_job_failure`. -/
def handle_job_failure (s : Store) (j : Job) (msg : String) (now base : Int)
    (uuid : String) : Store :=
  let j2 := failedJob j msg now
  if (j2.attempts : Int) > j2.max_retries then move_to_dlq s j2 now uuid
  else update_job s (retriedJob j2 now base)

/-- The in-place mutation of `QueueManager.handle_job_success`
(queue.py lines 120-122): `state = completed`, `updated_at = now`,
`worker_id = null`. -/
def completedJob (j : Job) (now : Int) : Job :=
  { j with state := JobState.completed, updated_at := now, worker_id := none }

/-- The success outcome `QueueManager.handle_job_success`. -/
def handle_job_success (s : Store) (j : Job) (now : Int) : Store :=
  update_job s (completedJob j now)

/-- An already-parsed, JSON-shaped job specification (the dictionary read by
`QueueManager.create_job_from_spec`). -/
structure JobSpec where
  id : Option String := none
  command : String
  max_retries : Option Int := none
  priority : Option Int := none
  run_at : Option Int := none
  timeout_seconds : Option Int := none
deriving DecidableEq, Repr

/-- Job construction `QueueManager.create_job_from_spec`; `uuid` is the generated identifier
used when the spec carries none, `now = datetime.utcnow()`. -/
def create_job_from_spec (spec : JobSpec) (default_max_retries : Int)
    (uuid : String) (now : Int) : Job :=
  { id := spec.id.getD uuid, command := spec.command,
    state := JobState.pending, attempts := 0,
    max_retries := spec.max_retries.getD default_max_retries,
    created_at := now, updated_at := now,
    next_run_at := spec.run_at.getD now,
    priority := spec.priority.getD 0, run_at := spec.run_at,
    timeout_seconds := spec.timeout_seconds }

/-- The insert `QueueManager._insert_job`: the `INSERT` lists neither `last_error` nor
`worker_id`, so both columns store as null. -/
def insertJob (jobs : List Job) (j : Job) : List Job :=
  jobs ++ [{ j with last_error := none, worker_id := none }]

/-- Enqueue (`QueueManager.validate_and_enqueue`) after JSON parsing: reject a
duplicate explicit id (`_validate_job_spec`), else build the job and insert
it, returning its id. -/
def validate_and_enqueue (s : Store) (spec : JobSpec) (default_max_retries : Int)
    (uuid : String) (now : Int) : Option (String × Store) :=
  if spec.id.isSome ∧ (getJobById s.jobs (spec.id.getD uuid)).isSome then none
  else
    some ((create_job_from_spec spec default_max_retries uuid now).id,
      { s with jobs :=
          insertJob s.jobs (create_job_from_spec spec default_max_retries uuid now) })

/-- Lookup in the `dlq` table by primary key. -/
def findDlq (dlq : List DLQJob) (did : String) : Option DLQJob :=
  dlq.find? (fun d => decide (d.id = did))

/-- The id chosen by `QueueManager.retry_from_dlq`: the original job id when
`same_id`, else the freshly generated one. -/
def retryNewId (d : DLQJob) (same_id : Bool) (uuid : String) : String :=
  if same_id then d.original_job_id else uuid

/-- The fresh job built by `QueueManager.retry_from_dlq`
(`attempts = 0`, `max_retries = 3`, `state = pending`, `next_run_at = now`,
`created_at` copied from the DLQ entry). -/
def retryJobRow (d : DLQJob) (new_id : String) (now : Int) : Job :=
  { id := new_id, command := d.command, state := JobState.pending,
    attempts := 0, max_retries := 3, created_at := d.created_at,
    updated_at := now, next_run_at := now }

/-- DLQ retry `QueueManager.retry_from_dlq`: read the DLQ row, mint or reuse the id,
reject a collision, then in one transaction insert the fresh job and delete
the DLQ row. -/
def retry_from_dlq (s : Store) (dlq_id : String) (same_id : Bool)
    (uuid : String) (now : Int) : Option (String × Store) :=
  match findDlq s.dlq dlq_id with
  | none => none
  | some d =>
    if same_id ∧ (getJobById s.jobs (retryNewId d same_id uuid)).isSome then none
    else
      some (retryNewId d same_id uuid,
        { s with jobs := insertJob s.jobs (retryJobRow d (retryNewId d same_id uuid) now),
                 dlq := s.dlq.filter (fun e => decide (e.id ≠ dlq_id)) })

/-- The stale-job predicate of `Database._find_stale_jobs`: a processing row
whose worker is absent from the workers table (including a null
`worker_id`, which joins nothing) or whose heartbeat is too old. -/
def isStale (workers : List Worker) (timeout now : Int) (j : Job) : Bool :=
  decide (j.state = JobState.processing) &&
    match j.worker_id with
    | none => true
    | some wid =>
      match workers.find? (fun w => decide (w.worker_id = wid)) with
      | none => true
      | some w => decide (w.last_heartbeat_at + timeout < now)

/-- The stale scan `Database._find_stale_jobs`. -/
def find_stale_jobs (s : Store) (timeout now : Int) : List Job :=
  s.jobs.filter (isStale s.workers timeout now)

/-- The recovery message `Job recovered from stale worker <worker_id>`;
Python renders a null worker id as the text `None`. -/
def staleMsg (j : Job) : String :=
  "Job recovered from stale worker " ++
    (match j.worker_id with
     | some w => w
     | none => "None")

/-- The loop body of `Database.recover_stale_jobs`: feed each stale job
through `handle_job_failure`; `uu` supplies the fresh DLQ identifiers. -/
def recoverLoop (base now : Int) : Store → List Job → (Nat → String) → Store
  | s, [], _ => s
  | s, j :: rest, uu =>
    recoverLoop base now (handle_job_failure s j (staleMsg j) now base (uu 0))
      rest (fun n => uu (n + 1))

/-- The sweeper `Database.recover_stale_jobs`. -/
def recover_stale_jobs (s : Store) (timeout base now : Int)
    (uu : Nat → String) : Store :=
  recoverLoop base now s (find_stale_jobs s timeout now) uu

/-- Spec invariant (§3): `attempts ≤ max_retries + 1`. -/
def attemptsBounded (j : Job) : Prop := (j.attempts : Int) ≤ j.max_retries + 1

/-- Bound `attemptsBounded` for every row of the jobs table. -/
def storeAttemptsBounded (s : Store) : Prop := ∀ j ∈ s.jobs, attemptsBounded j

/-- Spec invariant (§3, §8.2): `state = processing ⇔ worker_id ≠ null`. -/
def workerLinked (j : Job) : Prop :=
  j.state = JobState.processing ↔ j.worker_id ≠ none

/-- Link `workerLinked` for every row of the jobs table. -/
def storeWorkerLinked (s : Store) : Prop := ∀ j ∈ s.jobs, workerLinked j

instance decAttemptsBounded (j : Job) : Decidable (attemptsBounded j) := by
  unfold attemptsBounded
  infer_instance

instance decStoreAttemptsBounded (s : Store) : Decidable (storeAttemptsBounded s) := by
  unfold storeAttemptsBounded
  infer_instance

instance decWorkerLinked (j : Job) : Decidable (workerLinked j) := by
  unfold workerLinked
  infer_instance

instance decStoreWorkerLinked (s : Store) : Decidable (storeWorkerLinked s) := by
  unfold storeWorkerLinked
  infer_instance

/-- Is a job row with the given id present? -/
def jobRowPresent (s : Store) (jid : String) : Bool :=
  (getJobById s.jobs jid).isSome

/-- Does the DLQ hold an entry for the given original job id? -/
def dlqHasOriginal (s : Store) (jid : String) : Bool :=
  s.dlq.any (fun d => decide (d.original_job_id = jid))

/-- The full correctness statement of the atomic claim primitive, at one
store, worker id and instant: either nothing is eligible and the call
returns nothing leaving the store untouched, or the call returns the
highest-priority / earliest-created eligible row, rewritten to
`processing` under the caller and durably committed, all other rows kept. -/
def claimOutcome (s : Store) (w : String) (now : Int) : Prop :=
  (claim_job s w now = (none, s) ∧ ∀ j ∈ s.jobs, eligible now j = false) ∨
  (∃ b ∈ s.jobs, eligible now b = true ∧
    (∀ j ∈ s.jobs, eligible now j = true →
      j.priority ≤ b.priority ∧
        (j.priority = b.priority → b.created_at ≤ j.created_at)) ∧
    (claim_job s w now).1 = some (claimedRow w now b) ∧
    getJobById (claim_job s w now).2.jobs b.id = some (claimedRow w now b) ∧
    (∀ j ∈ s.jobs, j.id ≠ b.id → j ∈ (claim_job s w now).2.jobs) ∧
    (claim_job s w now).2.dlq = s.dlq ∧
    (claim_job s w now).2.workers = s.workers)

/-- Worker id used in concrete instantiations. -/
def wA : String := "w1"

/-- Fresh identifier used in concrete instantiations. -/
def uA : String := "u0"

/-- A non-empty failure message used in concrete instantiations. -/
def msgA : String := "boom"

/-- The empty failure message. -/
def emptyMsg : String := ""

/-- A concrete in-flight job. -/
def sampleJob : Job :=
  { id := "j0", command := "cmd", state := JobState.processing, attempts := 0,
    max_retries := 3, created_at := 0, updated_at := 0, next_run_at := 0,
    worker_id := some "w0" }

/-- A concrete store holding `sampleJob`. -/
def sampleStore : Store := { jobs := [sampleJob], dlq := [], workers := [] }

/-- A job specification carrying a negative `max_retries`, which
`create_job_from_spec` accepts unchecked. -/
def badRetrySpec : JobSpec := { command := "cmd", max_retries := some (-2) }

/-- A job specification whose `run_at` lies in the past of the enqueue. -/
def pastRunSpec : JobSpec := { command := "cmd", run_at := some (-5) }

/-- A plain valid job specification. -/
def okSpec : JobSpec := { command := "cmd" }

/-- The row `validate_and_enqueue emptyStore okSpec 3 uA 0` stores. -/
def okJob : Job :=
  { id := "u0", command := "cmd", state := JobState.pending, attempts := 0,
    max_retries := 3, created_at := 0, updated_at := 0, next_run_at := 0,
    last_error := none, priority := 0, run_at := none, timeout_seconds := none,
    worker_id := none }

/-- The store produced by enqueueing `okSpec` into the empty store. -/
def okStore : Store := { jobs := [okJob], dlq := [], workers := [] }

/-- The row `validate_and_enqueue emptyStore badRetrySpec 3 uA 0` stores:
`attempts = 0` exceeds `max_retries + 1 = -1`. -/
def badRetryJob : Job :=
  { id := "u0", command := "cmd", state := JobState.pending, attempts := 0,
    max_retries := -2, created_at := 0, updated_at := 0, next_run_at := 0,
    last_error := none, priority := 0, run_at := none, timeout_seconds := none,
    worker_id := none }

/-- The store produced by enqueueing `badRetrySpec` into the empty store. -/
def badRetryStore : Store := { jobs := [badRetryJob], dlq := [], workers := [] }

/-- The row `validate_and_enqueue emptyStore pastRunSpec 3 uA 0` stores:
`next_run_at = -5` precedes `created_at = 0`. -/
def pastRunJob : Job :=
  { id := "u0", command := "cmd", state := JobState.pending, attempts := 0,
    max_retries := 3, created_at := 0, updated_at := 0, next_run_at := -5,
    last_error := none, priority := 0, run_at := some (-5),
    timeout_seconds := none, worker_id := none }

/-- The store produced by enqueueing `pastRunSpec` into the empty store. -/
def pastRunStore : Store := { jobs := [pastRunJob], dlq := [], workers := [] }

/-! Helper lemmas about the ordering and the keyed list operations. -/

theorem sortsBefore_irrefl (a : Job) : sortsBefore a a = false := by
  simp [sortsBefore]

theorem sortsBefore_asymm {a b : Job} (h : sortsBefore a b = true) :
    sortsBefore b a = false := by
  simp only [sortsBefore, Bool.or_eq_true, Bool.and_eq_true, decide_eq_true_eq,
    Bool.or_eq_false_iff, Bool.and_eq_false_iff, decide_eq_false_iff_not] at h ⊢
  omega

theorem sortsBefore_false_trans {a b c : Job} (hab : sortsBefore a b = false)
    (hbc : sortsBefore b c = false) : sortsBefore a c = false := by
  simp only [sortsBefore, Bool.or_eq_false_iff, Bool.and_eq_false_iff,
    decide_eq_false_iff_not] at hab hbc ⊢
  omega

theorem pickBest_spec (l : List Job) : ∀ a : Job, ∃ b,
    pickBest (some a) l = some b ∧ (b = a ∨ b ∈ l) ∧
    sortsBefore a b = false ∧ ∀ x ∈ l, sortsBefore x b = false := by
  induction l with
  | nil =>
    intro a
    exact ⟨a, rfl, Or.inl rfl, sortsBefore_irrefl a, by simp⟩
  | cons j rest ih =>
    intro a
    have hstep : pickBest (some a) (j :: rest) =
        pickBest (some (if sortsBefore j a then j else a)) rest := rfl
    cases hj : sortsBefore j a with
    | true =>
      obtain ⟨b, hpb, hmem, hjb, hall⟩ := ih j
      refine ⟨b, ?_, ?_, ?_, ?_⟩
      · rw [hstep, if_pos hj]; exact hpb
      · rcases hmem with rfl | h
        · exact Or.inr (List.mem_cons_self _ _)
        · exact Or.inr (List.mem_cons_of_mem _ h)
      · exact sortsBefore_false_trans (sortsBefore_asymm hj) hjb
      · intro x hx
        rcases List.mem_cons.mp hx with rfl | hx2
        · exact hjb
        · exact hall x hx2
    | false =>
      obtain ⟨b, hpb, hmem, hab, hall⟩ := ih a
      refine ⟨b, ?_, ?_, hab, ?_⟩
      · rw [hstep, if_neg (by simp [hj])]; exact hpb
      · rcases hmem with rfl | h
        · exact Or.inl rfl
        · exact Or.inr (List.mem_cons_of_mem _ h)
      · intro x hx
        rcases List.mem_cons.mp hx with rfl | hx2
        · exact sortsBefore_false_trans hj hab
        · exact hall x hx2

theorem getJobById_map_cond (jobs : List Job) (k : String) (g : Job → Job)
    (c : Job → Prop) [DecidablePred c]
    (hg : ∀ r, (g r).id = r.id) (b : Job) (hb : b ∈ jobs) (hbk : b.id = k)
    (hcb : c b) (hck : ∀ r, c r → r.id = k)
    (hnd : (jobs.map Job.id).Nodup) :
    getJobById (jobs.map (fun r => if c r then g r else r)) k = some (g b) := by
  induction jobs with
  | nil => cases hb
  | cons h rest ih =>
    rw [List.map_cons, List.nodup_cons] at hnd
    rcases List.mem_cons.mp hb with hbh | hbrest
    · subst hbh
      rw [List.map_cons, if_pos hcb]
      unfold getJobById
      rw [List.find?_cons_of_pos _ (by simp [hg, hbk])]
    · have hne : h.id ≠ k := by
        intro he
        exact hnd.1 ((he.trans hbk.symm) ▸ List.mem_map_of_mem Job.id hbrest)
      by_cases hch : c h
      · exact absurd (hck h hch) hne
      · rw [List.map_cons, if_neg hch]
        unfold getJobById
        rw [List.find?_cons_of_neg _ (by simp [hne])]
        exact ih hbrest hnd.2

theorem mem_map_cond_frame (jobs : List Job) (g : Job → Job) (c : Job → Prop)
    [DecidablePred c] (j : Job) (hj : j ∈ jobs) (hcj : ¬ c j) :
    j ∈ jobs.map (fun r => if c r then g r else r) := by
  refine List.mem_map.mpr ⟨j, hj, ?_⟩
  exact if_neg hcj

theorem getJobById_filter_out (jobs : List Job) (k : String) :
    getJobById (jobs.filter (fun r => decide (r.id ≠ k))) k = none := by
  unfold getJobById
  rw [List.find?_eq_none]
  intro r hr
  have h2 := (List.mem_filter.mp hr).2
  simp only [decide_eq_true_eq] at h2 ⊢
  exact h2

theorem filter_key_single (jobs : List Job) (b : Job) (hb : b ∈ jobs)
    (hnd : (jobs.map Job.id).Nodup) (p : Job → Prop) [DecidablePred p]
    (hpb : p b) :
    jobs.filter (fun r => decide (r.id = b.id ∧ p r)) = [b] := by
  induction jobs with
  | nil => cases hb
  | cons h rest ih =>
    rw [List.map_cons, List.nodup_cons] at hnd
    rcases List.mem_cons.mp hb with hbh | hbrest
    · subst hbh
      rw [List.filter_cons, if_pos (by simp [hpb])]
      have hrest : rest.filter (fun r => decide (r.id = b.id ∧ p r)) = [] := by
        rw [List.filter_eq_nil_iff]
        intro r hr
        simp only [decide_eq_true_eq, not_and]
        intro hid
        exact absurd (hid ▸ List.mem_map_of_mem Job.id hr) hnd.1
      rw [hrest]
    · have hne : h.id ≠ b.id := by
        intro he
        exact hnd.1 (he ▸ List.mem_map_of_mem Job.id hbrest)
      rw [List.filter_cons, if_neg (by simp [hne])]
      exact ih hbrest hnd.2

/-- C1: for every store state and worker id, `Database.claim_job` either
returns exactly one job that was pending with `next_run_at ≤ now` — the
highest-priority one, ties broken by smallest `created_at` — committed with
`state = processing` and `worker_id = w` (the hydrated row returned exactly
because the conditional update mutated one row), or returns nothing when no
eligible job exists. -/
theorem claim_job_atomic_spec (s : Store) (w : String) (now : Int)
    (hnd : (s.jobs.map Job.id).Nodup) : claimOutcome s w now := by
  unfold claimOutcome
  rcases hfilt : s.jobs.filter (eligible now) with _ | ⟨h0, t⟩
  · left
    constructor
    · show claim_job s w now = (none, s)
      unfold claim_job selectCandidate
      rw [hfilt]
      rfl
    · intro j hj
      have h2 := List.filter_eq_nil_iff.mp hfilt j hj
      cases he : eligible now j
      · rfl
      · exact absurd he h2
  · right
    obtain ⟨b, hpb, hmem, hh0b, hall⟩ := pickBest_spec t h0
    have hbfilt : b ∈ s.jobs.filter (eligible now) := by
      rw [hfilt]
      rcases hmem with rfl | h
      · exact List.mem_cons_self _ _
      · exact List.mem_cons_of_mem _ h
    have hbjobs : b ∈ s.jobs := (List.mem_filter.mp hbfilt).1
    have hbelig : eligible now b = true := (List.mem_filter.mp hbfilt).2
    have hmax : ∀ j ∈ s.jobs, eligible now j = true → sortsBefore j b = false := by
      intro j hj he
      have hjf : j ∈ s.jobs.filter (eligible now) := List.mem_filter.mpr ⟨hj, he⟩
      rw [hfilt] at hjf
      rcases List.mem_cons.mp hjf with rfl | hjt
      · exact hh0b
      · exact hall j hjt
    have hsel : selectCandidate s.jobs now = some b.id := by
      unfold selectCandidate
      rw [hfilt]
      show (pickBest (some h0) t).map Job.id = some b.id
      rw [hpb]
      rfl
    have hsingle : s.jobs.filter (fun r => decide (r.id = b.id ∧ eligible now r)) = [b] :=
      filter_key_single s.jobs b hbjobs hnd (fun r => eligible now r = true) hbelig
    have hhydrate :
        getJobById (s.jobs.map (fun r =>
          if r.id = b.id ∧ eligible now r then claimedRow w now r else r)) b.id =
          some (claimedRow w now b) :=
      getJobById_map_cond s.jobs b.id (claimedRow w now)
        (fun r => r.id = b.id ∧ eligible now r = true) (fun r => rfl) b hbjobs rfl
        ⟨rfl, hbelig⟩ (fun r hr => hr.1) hnd
    have hcnt : (conditionalClaimUpdate s.jobs b.id w now).2 = 1 := by
      unfold conditionalClaimUpdate
      rw [hsingle]
      rfl
    have hfst : (conditionalClaimUpdate s.jobs b.id w now).1 =
        s.jobs.map (fun r =>
          if r.id = b.id ∧ eligible now r then claimedRow w now r else r) := rfl
    have hcj : claim_job s w now =
        (some (claimedRow w now b),
         { s with jobs := s.jobs.map (fun r =>
             if r.id = b.id ∧ eligible now r then claimedRow w now r else r) }) := by
      unfold claim_job
      rw [hsel]
      show (if (conditionalClaimUpdate s.jobs b.id w now).2 = 1 then
              getJobById (conditionalClaimUpdate s.jobs b.id w now).1 b.id
            else none,
            { s with jobs := (conditionalClaimUpdate s.jobs b.id w now).1 }) = _
      rw [hcnt, hfst, if_pos rfl, hhydrate]
    refine ⟨b, hbjobs, hbelig, ?_, ?_, ?_, ?_, ?_, ?_⟩
    · intro j hj he
      have h2 := hmax j hj he
      simp only [sortsBefore, Bool.or_eq_false_iff, Bool.and_eq_false_iff,
        decide_eq_false_iff_not] at h2
      constructor
      · omega
      · intro hp
        omega
    · rw [hcj]
    · rw [hcj]
      exact hhydrate
    · intro j hj hne
      rw [hcj]
      exact mem_map_cond_frame s.jobs (claimedRow w now)
        (fun r => r.id = b.id ∧ eligible now r = true) j hj (fun hc => hne hc.1)
    · rw [hcj]
    · rw [hcj]

/-- C1 witness: the claim specification applied to a concrete one-job store. -/
theorem claim_job_atomic_spec_witness : claimOutcome sampleStore wA 10 :=
  claim_job_atomic_spec sampleStore wA 10 (by decide)

/-- C6: `handle_job_success` rewrites the job's row with `state = completed`,
`updated_at = now`, `worker_id = null`, leaving every other field — in
particular `attempts` — unchanged, and leaves other rows and the DLQ
untouched. -/
theorem handle_job_success_spec (s : Store) (j : Job) (now : Int)
    (hmem : j ∈ s.jobs) (hnd : (s.jobs.map Job.id).Nodup) :
    getJobById (handle_job_success s j now).jobs j.id =
      some { j with state := JobState.completed, updated_at := now,
                    worker_id := none } ∧
    (∀ r ∈ s.jobs, r.id ≠ j.id → r ∈ (handle_job_success s j now).jobs) ∧
    (handle_job_success s j now).dlq = s.dlq ∧
    (handle_job_success s j now).workers = s.workers := by
  refine ⟨?_, ?_, rfl, rfl⟩
  · exact getJobById_map_cond s.jobs j.id
      (fun r => updatedRow r
        { j with state := JobState.completed, updated_at := now, worker_id := none })
      (fun r => r.id = j.id) (fun r => rfl) j hmem rfl rfl (fun r hr => hr) hnd
  · intro r hr hne
    exact mem_map_cond_frame s.jobs
      (fun r => updatedRow r
        { j with state := JobState.completed, updated_at := now, worker_id := none })
      (fun r => r.id = j.id) r hr hne

/-- C6 witness: a concrete successful job keeps `attempts = 0` and ends
`completed` with a null worker. -/
theorem handle_job_success_spec_witness :
    getJobById (handle_job_success sampleStore sampleJob 5).jobs sampleJob.id =
      some { sampleJob with state := JobState.completed, updated_at := 5,
                            worker_id := none } ∧
    (handle_job_success sampleStore sampleJob 5).dlq = sampleStore.dlq :=
  ⟨(handle_job_success_spec sampleStore sampleJob 5 (by decide) (by decide)).1,
   (handle_job_success_spec sampleStore sampleJob 5 (by decide) (by decide)).2.2.1⟩

/-- C5: `move_to_dlq` is one transaction: from a pre-state holding the
processing job row and no DLQ entry for it, the two observable states are
pre (row present, no DLQ entry) and post (row absent, DLQ entry present) —
never both rows, never neither. -/
theorem move_to_dlq_atomic (s : Store) (j : Job) (now : Int) (uuid : String)
    (hpre : (getJobById s.jobs j.id).map Job.state = some JobState.processing)
    (hfresh : dlqHasOriginal s j.id = false) :
    (jobRowPresent s j.id = true ∧ dlqHasOriginal s j.id = false) ∧
    (jobRowPresent (move_to_dlq s j now uuid) j.id = false ∧
      dlqHasOriginal (move_to_dlq s j now uuid) j.id = true) := by
  refine ⟨⟨?_, hfresh⟩, ?_, ?_⟩
  · unfold jobRowPresent
    cases hg : getJobById s.jobs j.id
    · rw [hg] at hpre
      cases hpre
    · rfl
  · unfold jobRowPresent move_to_dlq
    rw [getJobById_filter_out]
    rfl
  · unfold dlqHasOriginal move_to_dlq
    simp

/-- C5 witness: the post-state exclusivity at a concrete store. -/
theorem move_to_dlq_atomic_witness :
    jobRowPresent (move_to_dlq sampleStore sampleJob 7 uA) sampleJob.id = false ∧
    dlqHasOriginal (move_to_dlq sampleStore sampleJob 7 uA) sampleJob.id = true :=
  (move_to_dlq_atomic sampleStore sampleJob 7 uA (by decide) (by decide)).2

/-- C2 counterexample: with the empty failure message, `handle_job_failure`
stores a null `last_error`, not the message truncated to 1000 characters
(which would be the empty string). -/
theorem handle_job_failure_empty_message_cex :
    (getJobById (handle_job_failure sampleStore sampleJob emptyMsg 10 2 uA).jobs
        sampleJob.id).map Job.last_error = some none ∧
    some (none : Option String) ≠ some (some (emptyMsg.take 1000)) := by
  constructor
  · decide
  · decide

/-- C2 (amended): `handle_job_failure` increments `attempts`, stores the
message truncated to 1000 characters (null when the message is empty), sets
`updated_at = now`, clears `worker_id`, and then: when
`attempts > max_retries` it deletes the Job row and writes the DLQ entry,
else it re-pends the row with `next_run_at = now + base ^ attempts`; with
base 2 the delays after failures 1, 2, 3, 4 are 2, 4, 8 and 16 seconds. -/
theorem handle_job_failure_spec (s : Store) (j : Job) (msg : String)
    (now base : Int) (uuid : String)
    (hmem : j ∈ s.jobs) (hnd : (s.jobs.map Job.id).Nodup) :
    (calculate_backoff_delay 1 2 = 2 ∧ calculate_backoff_delay 2 2 = 4 ∧
     calculate_backoff_delay 3 2 = 8 ∧ calculate_backoff_delay 4 2 = 16) ∧
    (j.max_retries < (j.attempts : Int) + 1 →
      getJobById (handle_job_failure s j msg now base uuid).jobs j.id = none ∧
      ({ id := uuid, original_job_id := j.id, command := j.command,
         attempts := j.attempts + 1,
         last_error := if msg = "" then none else some (msg.take 1000),
         created_at := j.created_at, updated_at := now,
         moved_at := now } : DLQJob) ∈
        (handle_job_failure s j msg now base uuid).dlq) ∧
    ((j.attempts : Int) + 1 ≤ j.max_retries →
      getJobById (handle_job_failure s j msg now base uuid).jobs j.id =
        some { j with state := JobState.pending, attempts := j.attempts + 1,
                      last_error := if msg = "" then none else some (msg.take 1000),
                      updated_at := now, worker_id := none,
                      next_run_at := now + base ^ (j.attempts + 1) }) := by
  refine ⟨by decide, ?_, ?_⟩
  · intro hgt
    have hcond : ((failedJob j msg now).attempts : Int) >
        (failedJob j msg now).max_retries := by
      show ((j.attempts + 1 : Nat) : Int) > j.max_retries
      push_cast
      omega
    have hstep : handle_job_failure s j msg now base uuid =
        move_to_dlq s (failedJob j msg now) now uuid := by
      unfold handle_job_failure
      exact if_pos hcond
    rw [hstep]
    constructor
    · exact getJobById_filter_out s.jobs j.id
    · exact List.mem_append_right _ (List.mem_singleton.mpr rfl)
  · intro hle
    have hcond : ¬ ((failedJob j msg now).attempts : Int) >
        (failedJob j msg now).max_retries := by
      show ¬ ((j.attempts + 1 : Nat) : Int) > j.max_retries
      push_cast
      omega
    have hstep : handle_job_failure s j msg now base uuid =
        update_job s (retriedJob (failedJob j msg now) now base) := by
      unfold handle_job_failure
      exact if_neg hcond
    rw [hstep]
    exact getJobById_map_cond s.jobs j.id
      (fun r => updatedRow r (retriedJob (failedJob j msg now) now base))
      (fun r => r.id = j.id) (fun r => rfl) j hmem rfl rfl (fun r hr => hr) hnd

/-- C2 witness: one concrete failure of a fresh job is retried with a 2
second backoff and the truncated message. -/
theorem handle_job_failure_spec_witness :
    calculate_backoff_delay 1 2 = 2 ∧
    getJobById (handle_job_failure sampleStore sampleJob msgA 10 2 uA).jobs
        sampleJob.id =
      some { sampleJob with state := JobState.pending,
                            attempts := sampleJob.attempts + 1,
                            last_error := if msgA = "" then none
                                          else some (msgA.take 1000),
                            updated_at := 10, worker_id := none,
                            next_run_at := 10 + 2 ^ (sampleJob.attempts + 1) } :=
  ⟨(handle_job_failure_spec sampleStore sampleJob msgA 10 2 uA (by decide)
      (by decide)).1.1,
   (handle_job_failure_spec sampleStore sampleJob msgA 10 2 uA (by decide)
      (by decide)).2.2 (by decide)⟩

/-! Helper lemmas for the store-wide invariants. -/

theorem forall_mem_map_ite {P : Job → Prop} (l : List Job) (c : Job → Prop)
    [DecidablePred c] (g : Job → Job) (h : ∀ x ∈ l, P x)
    (hg : ∀ x ∈ l, c x → P (g x)) :
    ∀ r ∈ l.map (fun x => if c x then g x else x), P r := by
  intro r hr
  rcases List.mem_map.mp hr with ⟨x, hx, hfx⟩
  by_cases hc : c x
  · have h2 : r = g x := by rw [← hfx]; simp [hc]
    rw [h2]
    exact hg x hx hc
  · have h2 : r = x := by rw [← hfx]; simp [hc]
    rw [h2]
    exact h x hx

theorem forall_mem_append_one {P : Job → Prop} (l : List Job) (j : Job)
    (h : ∀ x ∈ l, P x) (hj : P j) : ∀ r ∈ l ++ [j], P r := by
  intro r hr
  rcases List.mem_append.mp hr with h2 | h2
  · exact h r h2
  · rw [List.mem_singleton.mp h2]
    exact hj

theorem validate_and_enqueue_inv (s : Store) (spec : JobSpec) (dmr : Int)
    (uuid : String) (now : Int) (jid : String) (s2 : Store)
    (h : validate_and_enqueue s spec dmr uuid now = some (jid, s2)) :
    s2 = { s with
           jobs := insertJob s.jobs (create_job_from_spec spec dmr uuid now) } := by
  unfold validate_and_enqueue at h
  by_cases hd : spec.id.isSome ∧ (getJobById s.jobs (spec.id.getD uuid)).isSome
  · rw [if_pos hd] at h
    cases h
  · rw [if_neg hd] at h
    injection h with h2
    injection h2 with ha hb
    exact hb.symm

theorem retry_from_dlq_inv (s : Store) (did : String) (same : Bool)
    (uuid : String) (now : Int) (jid : String) (s2 : Store)
    (h : retry_from_dlq s did same uuid now = some (jid, s2)) :
    ∃ d, findDlq s.dlq did = some d ∧
      s2 = { s with
             jobs := insertJob s.jobs (retryJobRow d (retryNewId d same uuid) now),
             dlq := s.dlq.filter (fun e => decide (e.id ≠ did)) } := by
  unfold retry_from_dlq at h
  rcases hfd : findDlq s.dlq did with _ | d
  · rw [hfd] at h
    cases h
  · rw [hfd] at h
    refine ⟨d, rfl, ?_⟩
    have h3 : (if same = true ∧ (getJobById s.jobs (retryNewId d same uuid)).isSome = true
               then none
               else some (retryNewId d same uuid,
                 { s with
                   jobs := insertJob s.jobs (retryJobRow d (retryNewId d same uuid) now),
                   dlq := s.dlq.filter (fun e => decide (e.id ≠ did)) })) =
        some (jid, s2) := h
    by_cases hdup : same = true ∧ (getJobById s.jobs (retryNewId d same uuid)).isSome = true
    · rw [if_pos hdup] at h3
      cases h3
    · rw [if_neg hdup] at h3
      injection h3 with h2
      injection h2 with ha hb
      exact hb.symm

theorem handle_job_failure_dlq_eq (s : Store) (j : Job) (msg : String)
    (now base : Int) (uuid : String)
    (hc : j.max_retries < (j.attempts : Int) + 1) :
    handle_job_failure s j msg now base uuid =
      move_to_dlq s (failedJob j msg now) now uuid := by
  unfold handle_job_failure
  refine if_pos ?_
  show ((j.attempts + 1 : Nat) : Int) > j.max_retries
  push_cast
  omega

theorem handle_job_failure_retry_eq (s : Store) (j : Job) (msg : String)
    (now base : Int) (uuid : String)
    (hc : (j.attempts : Int) + 1 ≤ j.max_retries) :
    handle_job_failure s j msg now base uuid =
      update_job s (retriedJob (failedJob j msg now) now base) := by
  unfold handle_job_failure
  refine if_neg ?_
  show ¬ ((j.attempts + 1 : Nat) : Int) > j.max_retries
  push_cast
  omega

theorem claim_job_store_cases (s : Store) (w : String) (now : Int) :
    (claim_job s w now).2 = s ∨
    ∃ jid, (claim_job s w now).2 =
      { s with jobs := s.jobs.map (fun r =>
          if r.id = jid ∧ eligible now r then claimedRow w now r else r) } := by
  unfold claim_job
  cases hsel : selectCandidate s.jobs now
  · exact Or.inl rfl
  · exact Or.inr ⟨_, rfl⟩

theorem recoverLoop_preserves (base now : Int) (P : Store → Prop)
    (hstep : ∀ s j uuid, P s → P (handle_job_failure s j (staleMsg j) now base uuid)) :
    ∀ (l : List Job) (s : Store) (uu : Nat → String),
      P s → P (recoverLoop base now s l uu) := by
  intro l
  induction l with
  | nil =>
    intro s uu h
    exact h
  | cons j rest ih =>
    intro s uu h
    exact ih (handle_job_failure s j (staleMsg j) now base (uu 0))
      (fun n => uu (n + 1)) (hstep s j (uu 0) h)

theorem storeWorkerLinked_failure (s : Store) (j : Job) (msg : String)
    (now base : Int) (uuid : String) (h : storeWorkerLinked s) :
    storeWorkerLinked (handle_job_failure s j msg now base uuid) := by
  by_cases hc : j.max_retries < (j.attempts : Int) + 1
  · rw [handle_job_failure_dlq_eq s j msg now base uuid hc]
    intro r hr
    exact h r (List.mem_filter.mp hr).1
  · push_neg at hc
    rw [handle_job_failure_retry_eq s j msg now base uuid hc]
    intro r hr
    refine forall_mem_map_ite s.jobs
      (fun x => x.id = (retriedJob (failedJob j msg now) now base).id)
      (fun x => updatedRow x (retriedJob (failedJob j msg now) now base))
      h ?_ r hr
    intro x hx hcx
    show workerLinked (updatedRow x (retriedJob (failedJob j msg now) now base))
    simp [workerLinked, updatedRow, retriedJob, failedJob]

theorem storeAttemptsBounded_failure (s : Store) (j : Job) (msg : String)
    (now base : Int) (uuid : String) (h : storeAttemptsBounded s) :
    storeAttemptsBounded (handle_job_failure s j msg now base uuid) := by
  by_cases hc : j.max_retries < (j.attempts : Int) + 1
  · rw [handle_job_failure_dlq_eq s j msg now base uuid hc]
    intro r hr
    exact h r (List.mem_filter.mp hr).1
  · push_neg at hc
    rw [handle_job_failure_retry_eq s j msg now base uuid hc]
    intro r hr
    refine forall_mem_map_ite s.jobs
      (fun x => x.id = (retriedJob (failedJob j msg now) now base).id)
      (fun x => updatedRow x (retriedJob (failedJob j msg now) now base))
      h ?_ r hr
    intro x hx hcx
    show ((j.attempts + 1 : Nat) : Int) ≤ j.max_retries + 1
    push_cast
    omega

/-- C4: `state = processing ⇔ worker_id ≠ null` holds in the initial store
and is preserved by every operation: enqueue inserts pending rows with a
null worker, claim sets `processing` and the worker together, success and
failure clear the worker on leaving `processing`, the sweeper routes
through failure handling, and DLQ retry inserts pending rows with a null
worker. -/
theorem worker_linked_invariant :
    storeWorkerLinked emptyStore ∧
    (∀ s spec dmr uuid now jid s2, storeWorkerLinked s →
      validate_and_enqueue s spec dmr uuid now = some (jid, s2) →
      storeWorkerLinked s2) ∧
    (∀ s w now, storeWorkerLinked s → storeWorkerLinked (claim_job s w now).2) ∧
    (∀ s j now, storeWorkerLinked s →
      storeWorkerLinked (handle_job_success s j now)) ∧
    (∀ s j msg now base uuid, storeWorkerLinked s →
      storeWorkerLinked (handle_job_failure s j msg now base uuid)) ∧
    (∀ s timeout base now uu, storeWorkerLinked s →
      storeWorkerLinked (recover_stale_jobs s timeout base now uu)) ∧
    (∀ s did same uuid now jid s2, storeWorkerLinked s →
      retry_from_dlq s did same uuid now = some (jid, s2) →
      storeWorkerLinked s2) := by
  refine ⟨?_, ?_, ?_, ?_, ?_, ?_, ?_⟩
  · intro r hr
    cases hr
  · intro s spec dmr uuid now jid s2 h he
    rw [validate_and_enqueue_inv s spec dmr uuid now jid s2 he]
    intro r hr
    refine forall_mem_append_one s.jobs _ h ?_ r hr
    show workerLinked { create_job_from_spec spec dmr uuid now with
                        last_error := none, worker_id := none }
    simp [workerLinked, create_job_from_spec]
  · intro s w now h
    rcases claim_job_store_cases s w now with h2 | ⟨jid, h2⟩
    · rw [h2]
      exact h
    · rw [h2]
      intro r hr
      refine forall_mem_map_ite s.jobs
        (fun x => x.id = jid ∧ eligible now x = true) (claimedRow w now) h ?_ r hr
      intro x hx hcx
      show workerLinked (claimedRow w now x)
      simp [workerLinked, claimedRow]
  · intro s j now h
    intro r hr
    refine forall_mem_map_ite s.jobs
      (fun x => x.id = (completedJob j now).id)
      (fun x => updatedRow x (completedJob j now))
      h ?_ r hr
    intro x hx hcx
    show workerLinked (updatedRow x (completedJob j now))
    simp [workerLinked, updatedRow, completedJob]
  · intro s j msg now base uuid h
    exact storeWorkerLinked_failure s j msg now base uuid h
  · intro s timeout base now uu h
    exact recoverLoop_preserves base now storeWorkerLinked
      (fun s2 j uuid h2 => storeWorkerLinked_failure s2 j (staleMsg j) now base uuid h2)
      (find_stale_jobs s timeout now) s uu h
  · intro s did same uuid now jid s2 h he
    rcases retry_from_dlq_inv s did same uuid now jid s2 he with ⟨d, hfd, rfl⟩
    intro r hr
    refine forall_mem_append_one s.jobs _ h ?_ r hr
    show workerLinked { retryJobRow d (retryNewId d same uuid) now with
                        last_error := none, worker_id := none }
    simp [workerLinked, retryJobRow]

/-- C4 witness: the invariant carried through concrete enqueue, claim,
success and failure steps. -/
theorem worker_linked_invariant_witness :
    storeWorkerLinked okStore ∧
    storeWorkerLinked (claim_job sampleStore wA 10).2 ∧
    storeWorkerLinked (handle_job_success sampleStore sampleJob 5) ∧
    storeWorkerLinked (handle_job_failure sampleStore sampleJob msgA 10 2 uA) :=
  ⟨(worker_linked_invariant).2.1 emptyStore okSpec 3 uA 0 uA okStore
      (by decide) (by decide),
   (worker_linked_invariant).2.2.1 sampleStore wA 10 (by decide),
   (worker_linked_invariant).2.2.2.1 sampleStore sampleJob 5 (by decide),
   (worker_linked_invariant).2.2.2.2.1 sampleStore sampleJob msgA 10 2 uA
      (by decide)⟩

/-- C3 counterexample: `validate_and_enqueue` accepts a specification whose
`max_retries` is `-2` and stores a reachable row with `attempts = 0`
exceeding `max_retries + 1 = -1`, so the claimed reachable-state invariant
fails at this input. -/
theorem attempts_bounded_enqueue_cex :
    validate_and_enqueue emptyStore badRetrySpec 3 uA 0 =
      some (uA, badRetryStore) ∧
    badRetryJob ∈ badRetryStore.jobs ∧ ¬ attemptsBounded badRetryJob := by
  refine ⟨by decide, by decide, by decide⟩

/-- C3 (amended): `attempts ≤ max_retries + 1` holds in the initial store
and is preserved by claim, failure handling (the `(max_retries + 1)`-th
failure deletes the Job row and writes a DLQ row instead), the sweeper and
DLQ retry; it is preserved by enqueue provided the spec's effective
`max_retries` is non-negative (the code never validates this), and by
success for the claimed job objects the worker passes back (which satisfy
the bound). -/
theorem attempts_bounded_invariant :
    storeAttemptsBounded emptyStore ∧
    (∀ s spec dmr uuid now jid s2, storeAttemptsBounded s →
      0 ≤ spec.max_retries.getD dmr →
      validate_and_enqueue s spec dmr uuid now = some (jid, s2) →
      storeAttemptsBounded s2) ∧
    (∀ s w now, storeAttemptsBounded s →
      storeAttemptsBounded (claim_job s w now).2) ∧
    (∀ s j now, storeAttemptsBounded s → attemptsBounded j →
      storeAttemptsBounded (handle_job_success s j now)) ∧
    (∀ s j msg now base uuid, storeAttemptsBounded s →
      storeAttemptsBounded (handle_job_failure s j msg now base uuid)) ∧
    (∀ s timeout base now uu, storeAttemptsBounded s →
      storeAttemptsBounded (recover_stale_jobs s timeout base now uu)) ∧
    (∀ s did same uuid now jid s2, storeAttemptsBounded s →
      retry_from_dlq s did same uuid now = some (jid, s2) →
      storeAttemptsBounded s2) := by
  refine ⟨?_, ?_, ?_, ?_, ?_, ?_, ?_⟩
  · intro r hr
    cases hr
  · intro s spec dmr uuid now jid s2 h hm he
    rw [validate_and_enqueue_inv s spec dmr uuid now jid s2 he]
    intro r hr
    refine forall_mem_append_one s.jobs _ h ?_ r hr
    show ((0 : Nat) : Int) ≤ spec.max_retries.getD dmr + 1
    push_cast
    omega
  · intro s w now h
    rcases claim_job_store_cases s w now with h2 | ⟨jid, h2⟩
    · rw [h2]
      exact h
    · rw [h2]
      intro r hr
      refine forall_mem_map_ite s.jobs
        (fun x => x.id = jid ∧ eligible now x = true) (claimedRow w now) h ?_ r hr
      intro x hx hcx
      exact h x hx
  · intro s j now h hj
    intro r hr
    refine forall_mem_map_ite s.jobs
      (fun x => x.id = (completedJob j now).id)
      (fun x => updatedRow x (completedJob j now))
      h ?_ r hr
    intro x hx hcx
    exact hj
  · intro s j msg now base uuid h
    exact storeAttemptsBounded_failure s j msg now base uuid h
  · intro s timeout base now uu h
    exact recoverLoop_preserves base now storeAttemptsBounded
      (fun s2 j uuid h2 => storeAttemptsBounded_failure s2 j (staleMsg j) now base uuid h2)
      (find_stale_jobs s timeout now) s uu h
  · intro s did same uuid now jid s2 h he
    rcases retry_from_dlq_inv s did same uuid now jid s2 he with ⟨d, hfd, rfl⟩
    intro r hr
    refine forall_mem_append_one s.jobs _ h ?_ r hr
    show ((0 : Nat) : Int) ≤ (3 : Int) + 1
    decide

/-- C3 witness: the bound carried through concrete enqueue, claim, success
and failure steps. -/
theorem attempts_bounded_invariant_witness :
    storeAttemptsBounded okStore ∧
    storeAttemptsBounded (claim_job sampleStore wA 10).2 ∧
    storeAttemptsBounded (handle_job_success sampleStore sampleJob 5) ∧
    storeAttemptsBounded (handle_job_failure sampleStore sampleJob msgA 10 2 uA) :=
  ⟨(attempts_bounded_invariant).2.1 emptyStore okSpec 3 uA 0 uA okStore
      (by decide) (by decide) (by decide),
   (attempts_bounded_invariant).2.2.1 sampleStore wA 10 (by decide),
   (attempts_bounded_invariant).2.2.2.1 sampleStore sampleJob 5 (by decide)
      (by decide),
   (attempts_bounded_invariant).2.2.2.2.1 sampleStore sampleJob msgA 10 2 uA
      (by decide)⟩

/-- C7 counterexample: `validate_and_enqueue` with a `run_at` in the past
stores a row with `next_run_at = -5 < created_at = 0`, so the claimed
invariant fails for an arbitrary (possibly past) `run_at`. -/
theorem next_run_at_enqueue_cex :
    validate_and_enqueue emptyStore pastRunSpec 3 uA 0 =
      some (uA, pastRunStore) ∧
    pastRunJob ∈ pastRunStore.jobs ∧
    ¬ pastRunJob.created_at ≤ pastRunJob.next_run_at := by
  refine ⟨by decide, by decide, by decide⟩

/-- C7 (amended): every row newly produced by enqueue (when the requested
`run_at`, if any, is not in the past), by a failure retry (for a
non-negative backoff base and rows created in the past), and by
`retry_from_dlq` (for DLQ entries created in the past) satisfies
`next_run_at ≥ created_at`; an enqueue with a past `run_at` violates it. -/
theorem next_run_at_bound :
    (∀ s spec dmr uuid now jid s2,
      validate_and_enqueue s spec dmr uuid now = some (jid, s2) →
      (∀ t, spec.run_at = some t → now ≤ t) →
      ∀ r ∈ s2.jobs, r ∈ s.jobs ∨ r.created_at ≤ r.next_run_at) ∧
    (∀ s j msg now base uuid, 0 ≤ base →
      (∀ x ∈ s.jobs, x.created_at ≤ now) →
      ∀ r ∈ (handle_job_failure s j msg now base uuid).jobs,
        r ∈ s.jobs ∨ r.created_at ≤ r.next_run_at) ∧
    (∀ s did same uuid now jid s2,
      retry_from_dlq s did same uuid now = some (jid, s2) →
      (∀ d ∈ s.dlq, d.created_at ≤ now) →
      ∀ r ∈ s2.jobs, r ∈ s.jobs ∨ r.created_at ≤ r.next_run_at) := by
  refine ⟨?_, ?_, ?_⟩
  · intro s spec dmr uuid now jid s2 he hrun r hr
    rw [validate_and_enqueue_inv s spec dmr uuid now jid s2 he] at hr
    rcases List.mem_append.mp hr with h2 | h2
    · exact Or.inl h2
    · right
      rw [List.mem_singleton.mp h2]
      show now ≤ spec.run_at.getD now
      cases hra : spec.run_at
      · exact le_rfl
      · exact hrun _ hra
  · intro s j msg now base uuid hb hcr r hr
    by_cases hc : j.max_retries < (j.attempts : Int) + 1
    · rw [handle_job_failure_dlq_eq s j msg now base uuid hc] at hr
      exact Or.inl (List.mem_filter.mp hr).1
    · push_neg at hc
      rw [handle_job_failure_retry_eq s j msg now base uuid hc] at hr
      rcases List.mem_map.mp hr with ⟨x, hx, hfx⟩
      by_cases hcx : x.id = (retriedJob (failedJob j msg now) now base).id
      · right
        have h2 : r = updatedRow x (retriedJob (failedJob j msg now) now base) := by
          rw [← hfx]
          simp [hcx]
        rw [h2]
        show x.created_at ≤ now + calculate_backoff_delay (j.attempts + 1) base
        have h3 : (0 : Int) ≤ base ^ (j.attempts + 1) := pow_nonneg hb _
        have h4 := hcr x hx
        unfold calculate_backoff_delay
        linarith
      · left
        have h2 : r = x := by
          rw [← hfx]
          simp [hcx]
        rw [h2]
        exact hx
  · intro s did same uuid now jid s2 he hcr r hr
    rcases retry_from_dlq_inv s did same uuid now jid s2 he with ⟨d, hfd, rfl⟩
    rcases List.mem_append.mp hr with h2 | h2
    · exact Or.inl h2
    · right
      rw [List.mem_singleton.mp h2]
      show d.created_at ≤ now
      exact hcr d (List.mem_of_find?_eq_some hfd)

/-- C7 witness: the row of a concrete enqueue without `run_at` satisfies the
bound. -/
theorem next_run_at_bound_witness :
    okJob ∈ emptyStore.jobs ∨ okJob.created_at ≤ okJob.next_run_at :=
  (next_run_at_bound).1 emptyStore okSpec 3 uA 0 uA okStore (by decide)
    (fun t ht => Option.noConfusion ht) okJob (by decide)

end QueueCTL
